import Mathlib

/-!
# Relay transport adapters over a QUIC datagram session

A shallow embedding of the two `Conn` types that wrap a `quic.Connection`:

* `relay/server/listener/quic/conn.go` (namespace `Listener`), and
* `relay/client/dialer/quic/conn.go` (namespace `Dialer`),

followed by a model of the relay round trip exercised by
`relay/client/client_test.go`, and by the open and close state of `ICEBind`
from `iface/bind/bind.go` (namespace `Bind`).

The QUIC session is an external collaborator.  It is represented by the list
of calls the connection made on it; what the session answers to a call is an
argument of the operation that makes the call.
-/

namespace Relay

/-! ## Go values shared by both variants -/

/-- One element of a Go byte slice. -/
abbrev Byte := Fin 256

/-- Fields of `quic.ApplicationError`. -/
structure ApplicationError where
  Remote : Bool
  ErrorCode : Nat
  ErrorMessage : String
  deriving DecidableEq, Repr

/-- Go `error` values as `errors.As` sees them: the sentinel `io.EOF`, a
`*quic.ApplicationError`, any other error that wraps nothing, or an error
whose `Unwrap` method returns the next error of the chain. -/
inductive GoError where
  | eof
  | app (e : ApplicationError)
  | other (msg : String)
  | wrap (msg : String) (inner : GoError)
  deriving DecidableEq, Repr

/-- The call `errors.As(err, &appErr)` with `appErr` of type
`*quic.ApplicationError`: walks the `Unwrap` chain and yields the first
application error on it, `none` when `errors.As` returns false. -/
def errorsAs : GoError → Option ApplicationError
  | .eof => none
  | .app e => some e
  | .other _ => none
  | .wrap _ inner => errorsAs inner

/-- The errors on the `Unwrap` chain of an error, the error itself first. -/
def GoError.chain : GoError → List GoError
  | .wrap msg inner => .wrap msg inner :: inner.chain
  | e => [e]

/-- An error is, or wraps, an application error with error code 0. -/
def GoError.isNormalClosure (err : GoError) : Bool :=
  err.chain.any fun e =>
    match e with
    | .app a => a.ErrorCode == 0
    | _ => false

/-- The Go builtin `copy(dst, src)`: the number of bytes copied and the
contents of `dst` afterwards. -/
def copy (dst src : List Byte) : Nat × List Byte :=
  let n := min dst.length src.length
  (n, src.take n ++ dst.drop n)

/-- A `time.Time`, as seconds and nanoseconds since the zero time. -/
structure Time where
  sec : Int
  nsec : Nat
  deriving DecidableEq, Repr

/-- The method `time.Time.IsZero`. -/
def Time.IsZero (t : Time) : Bool :=
  t.sec == 0 && t.nsec == 0

/-- A method call made on the `quic.Connection`. -/
inductive SessionCall where
  | ReceiveDatagram
  | SendDatagram (b : List Byte)
  | CloseWithError (code : Nat) (reason : String)
  deriving DecidableEq, Repr

/-- The `quic.Connection` behind a `Conn`: the calls made on it, oldest first. -/
structure Session where
  calls : List SessionCall
  deriving DecidableEq, Repr

/-- Record one more call on the session. -/
def Session.call (s : Session) (c : SessionCall) : Session :=
  { calls := s.calls ++ [c] }

/-- How many times `CloseWithError` was invoked on the session. -/
def Session.closeCount (s : Session) : Nat :=
  (s.calls.filter fun c =>
    match c with
    | .CloseWithError _ _ => true
    | _ => false).length

/-- How many times `ReceiveDatagram` was invoked on the session. -/
def Session.receiveCount (s : Session) : Nat :=
  (s.calls.filter fun c => c == .ReceiveDatagram).length

/-- What `Read` leaves behind: the connection, the caller buffer, and the
returned pair `(n, err)`. -/
structure ReadOut (σ : Type) where
  conn : σ
  buf : List Byte
  n : Nat
  err : Option GoError
  deriving DecidableEq, Repr

/-- What `Write` leaves behind: the connection and the returned pair `(n, err)`. -/
structure WriteOut (σ : Type) where
  conn : σ
  n : Nat
  err : Option GoError
  deriving DecidableEq, Repr

/-! ## `relay/server/listener/quic/conn.go` -/

namespace Listener

/-- The struct `Conn`; `ctxDone` records that `ctxCancel` has run. -/
structure Conn where
  session : Session
  closed : Bool
  ctxDone : Bool
  deriving DecidableEq, Repr

/-- The constructor `NewConn`. -/
def NewConn (session : Session) : Conn :=
  { session := session, closed := false, ctxDone := false }

/-- The method `isClosed`. -/
def Conn.isClosed (c : Conn) : Bool :=
  c.closed

/-- The method `ioErrHandling`. -/
def Conn.ioErrHandling (c : Conn) (err : Option GoError) : Option GoError :=
  if c.isClosed then
    some .eof
  else
    match err with
    | none => none
    | some e =>
      match errorsAs e with
      | some appErr => if appErr.ErrorCode = 0 then some .eof else some e
      | none => some e

/-- The method `Read`; `recv` is what `ReceiveDatagram` returns. -/
def Conn.Read (c : Conn) (b : List Byte) (recv : Except GoError (List Byte)) :
    ReadOut Conn :=
  if c.isClosed then
    { conn := c, buf := b, n := 0, err := some .eof }
  else
    let c1 := { c with session := c.session.call .ReceiveDatagram }
    match recv with
    | .error err => { conn := c1, buf := b, n := 0, err := c1.ioErrHandling (some err) }
    | .ok dgram =>
      let r := copy b dgram
      { conn := c1, buf := r.2, n := r.1, err := none }

/-- The method `Read` when other goroutines act on the connection while
`ReceiveDatagram` blocks: `during` is their combined effect. -/
def Conn.ReadInFlight (c : Conn) (b : List Byte) (during : Conn → Conn)
    (recv : Except GoError (List Byte)) : ReadOut Conn :=
  if c.isClosed then
    { conn := c, buf := b, n := 0, err := some .eof }
  else
    let c1 := during { c with session := c.session.call .ReceiveDatagram }
    match recv with
    | .error err => { conn := c1, buf := b, n := 0, err := c1.ioErrHandling (some err) }
    | .ok dgram =>
      let r := copy b dgram
      { conn := c1, buf := r.2, n := r.1, err := none }

/-- The method `Write`; `sendErr` is what `SendDatagram` returns. -/
def Conn.Write (c : Conn) (b : List Byte) (sendErr : Option GoError) : WriteOut Conn :=
  { conn := { c with session := c.session.call (.SendDatagram b) }
    n := b.length
    err := sendErr }

/-- The method `SetReadDeadline`. -/
def Conn.SetReadDeadline (_c : Conn) (_t : Time) : Option GoError :=
  none

/-- The method `SetWriteDeadline`. -/
def Conn.SetWriteDeadline (_c : Conn) (_t : Time) : Option GoError :=
  some (.other "SetWriteDeadline is not implemented")

/-- The method `SetDeadline`. -/
def Conn.SetDeadline (_c : Conn) (_t : Time) : Option GoError :=
  some (.other "SetDeadline is not implemented")

/-- The method `Close`; `sessionErr` is what `CloseWithError` returns. -/
def Conn.Close (c : Conn) (sessionErr : Option GoError) : Conn × Option GoError :=
  if c.closed then
    (c, none)
  else
    let c1 := { c with closed := true }
    let c2 := { c1 with ctxDone := true }
    ({ c2 with session := c2.session.call (.CloseWithError 0 "normal closure") }, sessionErr)

/-- Consecutive `Close` calls, one per session answer; the final connection
and the values returned, in call order. -/
def Conn.CloseSeq (c : Conn) : List (Option GoError) → Conn × List (Option GoError)
  | [] => (c, [])
  | r :: rs =>
    let first := c.Close r
    let rest := Conn.CloseSeq first.1 rs
    (rest.1, first.2 :: rest.2)

end Listener

/-! ## `relay/client/dialer/quic/conn.go` -/

namespace Dialer

/-- The struct `Addr`. -/
structure Addr where
  addr : String
  deriving DecidableEq, Repr

/-- The struct `Conn`; its context is `context.Background()`, never cancelled. -/
structure Conn where
  session : Session
  remoteAddr : Addr
  deriving DecidableEq, Repr

/-- The constructor `NewConn`. -/
def NewConn (session : Session) (serverAddress : String) : Conn :=
  { session := session, remoteAddr := { addr := serverAddress } }

/-- The method `Read`; `recv` is what `ReceiveDatagram` returns. -/
def Conn.Read (c : Conn) (b : List Byte) (recv : Except GoError (List Byte)) :
    ReadOut Conn :=
  let c1 := { c with session := c.session.call .ReceiveDatagram }
  match recv with
  | .error err => { conn := c1, buf := b, n := 0, err := some err }
  | .ok dgram =>
    let r := copy b dgram
    { conn := c1, buf := r.2, n := r.1, err := none }

/-- The method `Write`; `sendErr` is what `SendDatagram` returns. -/
def Conn.Write (c : Conn) (b : List Byte) (sendErr : Option GoError) : WriteOut Conn :=
  let c1 := { c with session := c.session.call (.SendDatagram b) }
  match sendErr with
  | some err => { conn := c1, n := 0, err := some err }
  | none => { conn := c1, n := b.length, err := none }

/-- The method `SetReadDeadline`. -/
def Conn.SetReadDeadline (_c : Conn) (_t : Time) : Option GoError :=
  some (.other "SetReadDeadline is not implemented")

/-- The method `SetWriteDeadline`. -/
def Conn.SetWriteDeadline (_c : Conn) (_t : Time) : Option GoError :=
  some (.other "SetWriteDeadline is not implemented")

/-- The method `SetDeadline`. -/
def Conn.SetDeadline (_c : Conn) (_t : Time) : Option GoError :=
  none

/-- The method `Close`; `sessionErr` is what `CloseWithError` returns. -/
def Conn.Close (c : Conn) (sessionErr : Option GoError) : Conn × Option GoError :=
  ({ c with session := c.session.call (.CloseWithError 0 "normal closure") }, sessionErr)

end Dialer

/-! ## The relay behind `relay/client/client_test.go`

The tests drive `server.NewServer`, `Listen`, `NewClient`, `Connect`,
`OpenConn` and the streams `OpenConn` returns.  Their implementation is not
among the sources at hand, so the definitions of this section follow the
specification of the relay server, the relay client and the virtual
connection.  A physical connection is identified with the peer id registered
on it, and the registration handshake is one atomic step. -/

namespace Model

/-- Modelled from the spec: the PeerID of the data model (the relay client
and server sources are missing), an opaque string. -/
abbrev PeerID := String

/-- Modelled from the spec: the Frame kinds of the data model (the wire
protocol source is missing). -/
inductive Frame where
  | REGISTER (peerID : PeerID)
  | REGISTER_OK
  | REGISTER_ERR (reason : String)
  | DATA (peer : PeerID) (payload : List Byte)
  | CLOSE (peer : PeerID)
  | KEEPALIVE
  deriving DecidableEq, Repr

/-- Modelled from the spec: the VirtualConnection of section 4.3 (its source
is missing): an inbound queue of delivered payloads, oldest first, and the
three ways a stream stops being live. -/
structure VirtualConnection where
  inbound : List (List Byte)
  closed : Bool
  closedByPeer : Bool
  transportLost : Bool
  deriving DecidableEq, Repr

/-- Modelled from the spec: a VirtualConnection as `OpenConn` creates it (the
relay client source is missing). -/
def VirtualConnection.fresh : VirtualConnection :=
  { inbound := [], closed := false, closedByPeer := false, transportLost := false }

/-- Modelled from the spec: a VirtualConnection is live until it is closed,
closed by the peer, or its transport is lost (the relay client source is
missing). -/
def VirtualConnection.live (vc : VirtualConnection) : Bool :=
  !vc.closed && !vc.closedByPeer && !vc.transportLost

/-- Modelled from the spec: the RelayClient state of the data model (the
relay client source is missing): whether it is registered, and its mapping
PeerID to VirtualConnection. -/
structure RelayClient where
  registered : Bool
  conns : PeerID → Option VirtualConnection

/-- Modelled from the spec: the PhysicalConnection of the data model (the
transport source is missing): the frames in flight towards the server and
towards the client, oldest first; the transport preserves their order. -/
structure PhysicalConnection where
  up : List Frame
  down : List Frame
  deriving DecidableEq, Repr

/-- Modelled from the spec: one relay server with its clients (the server
and client sources are missing): the server registry, the physical
connection of every peer id and the client running under every peer id. -/
structure Net where
  registry : PeerID → Bool
  links : PeerID → PhysicalConnection
  clients : PeerID → RelayClient

/-- Modelled from the spec: `server.NewServer` followed by `Listen` (the
server source is missing): nobody is registered, nothing is in flight. -/
def NewServer : Net :=
  { registry := fun _ => false
    links := fun _ => { up := [], down := [] }
    clients := fun _ => { registered := false, conns := fun _ => none } }

/-- Modelled from the spec: `NewClient` followed by `Connect` of section 4.2
together with the server handshake of section 4.1 (both sources are missing):
a peer id that is already registered is refused with a registration error,
otherwise the id enters the registry and the client is registered. -/
def Connect (s : Net) (localPeerID : PeerID) : Except GoError Net :=
  if s.registry localPeerID then
    .error (.other "registration error")
  else
    .ok { s with
      registry := Function.update s.registry localPeerID true
      links := Function.update s.links localPeerID { up := [], down := [] }
      clients := Function.update s.clients localPeerID
        { registered := true, conns := fun _ => none } }

/-- Modelled from the spec: `OpenConn` of section 4.2 (the relay client
source is missing): fails if the client is not registered, returns the
existing VirtualConnection for the id if live, otherwise creates one. -/
def OpenConn (s : Net) (localPeerID remotePeerID : PeerID) : Except GoError Net :=
  let c := s.clients localPeerID
  if !c.registered then
    .error (.other "client is not registered")
  else
    let c1 : RelayClient :=
      { c with conns := Function.update c.conns remotePeerID (some .fresh) }
    match c.conns remotePeerID with
    | some vc =>
      if vc.live then .ok s
      else .ok { s with clients := Function.update s.clients localPeerID c1 }
    | none => .ok { s with clients := Function.update s.clients localPeerID c1 }

/-- Modelled from the spec: `Write` on the stream of `localPeerID` to
`remotePeerID`, section 4.3 (the stream source is missing): it fails once the
VirtualConnection or its physical connection is closed, otherwise it frames
the payload as one `DATA` frame on the shared physical connection. -/
def Write (s : Net) (localPeerID remotePeerID : PeerID) (b : List Byte) : WriteOut Net :=
  let c := s.clients localPeerID
  match c.conns remotePeerID with
  | some vc =>
    if c.registered && vc.live then
      let l := s.links localPeerID
      let l1 : PhysicalConnection := { l with up := l.up ++ [.DATA remotePeerID b] }
      { conn := { s with links := Function.update s.links localPeerID l1 }
        n := b.length
        err := none }
    else
      { conn := s, n := 0, err := some (.other "use of closed connection") }
  | none => { conn := s, n := 0, err := some (.other "use of closed connection") }

/-- Modelled from the spec: hand one frame to the physical connection of a
registered peer, or drop it when the peer is not registered (the server
source is missing). -/
def forward (s : Net) (destPeerID : PeerID) (f : Frame) : Net :=
  if s.registry destPeerID then
    let l := s.links destPeerID
    let l1 : PhysicalConnection := { l with down := l.down ++ [f] }
    { s with links := Function.update s.links destPeerID l1 }
  else
    s

/-- Modelled from the spec: one turn of the server routing loop of section
4.1 on the connection registered as `srcPeerID` (the server source is
missing): a `DATA` or `CLOSE` frame is forwarded under the sender id to the
destination if that is registered and silently dropped otherwise. -/
def route (s : Net) (srcPeerID : PeerID) : Net :=
  if !s.registry srcPeerID then
    s
  else
    let l := s.links srcPeerID
    match l.up with
    | [] => s
    | f :: rest =>
      let l1 : PhysicalConnection := { l with up := rest }
      let s1 := { s with links := Function.update s.links srcPeerID l1 }
      match f with
      | .DATA destPeerID payload => forward s1 destPeerID (.DATA srcPeerID payload)
      | .CLOSE destPeerID => forward s1 destPeerID (.CLOSE srcPeerID)
      | _ => s1

/-- Modelled from the spec: one turn of the client read loop of section 4.2
(the relay client source is missing): a `DATA` frame is queued on the
VirtualConnection of its source id, which the first frame creates when none
is live; a `CLOSE` frame marks that VirtualConnection closed by the peer. -/
def deliver (s : Net) (localPeerID : PeerID) : Net :=
  let l := s.links localPeerID
  match l.down with
  | [] => s
  | f :: rest =>
    let l1 : PhysicalConnection := { l with down := rest }
    let s1 := { s with links := Function.update s.links localPeerID l1 }
    let c := s.clients localPeerID
    match f with
    | .DATA srcPeerID payload =>
      let vc :=
        match c.conns srcPeerID with
        | some vc => if vc.live then vc else .fresh
        | none => .fresh
      let vc1 : VirtualConnection := { vc with inbound := vc.inbound ++ [payload] }
      let c1 : RelayClient := { c with conns := Function.update c.conns srcPeerID (some vc1) }
      { s1 with clients := Function.update s.clients localPeerID c1 }
    | .CLOSE srcPeerID =>
      match c.conns srcPeerID with
      | some vc =>
        let vc1 : VirtualConnection := { vc with closedByPeer := true }
        let c1 : RelayClient := { c with conns := Function.update c.conns srcPeerID (some vc1) }
        { s1 with clients := Function.update s.clients localPeerID c1 }
      | none => s1
    | _ => s1

/-- Modelled from the spec: `Read` on the stream of `localPeerID` from
`remotePeerID`, section 4.3 (the stream source is missing): after a local
`Close` it fails; otherwise it copies from the oldest queued payload as many
bytes as the caller buffer holds and leaves the bytes that did not fit at the
head of the queue, so that no byte is lost or reordered; with nothing queued
it returns end-of-stream on a stream closed by the peer, an error on a lost
transport, and otherwise blocks, which is the result `none`. -/
def Read (s : Net) (localPeerID remotePeerID : PeerID) (b : List Byte) :
    Option (ReadOut Net) :=
  let c := s.clients localPeerID
  match c.conns remotePeerID with
  | none => some { conn := s, buf := b, n := 0, err := some (.other "use of closed connection") }
  | some vc =>
    if vc.closed then
      some { conn := s, buf := b, n := 0, err := some (.other "use of closed connection") }
    else
      match vc.inbound with
      | payload :: rest =>
        let r := copy b payload
        let left := payload.drop r.1
        let vc1 : VirtualConnection :=
          { vc with inbound := if left.isEmpty then rest else left :: rest }
        let c1 : RelayClient := { c with conns := Function.update c.conns remotePeerID (some vc1) }
        some
          { conn := { s with clients := Function.update s.clients localPeerID c1 }
            buf := r.2
            n := r.1
            err := none }
      | [] =>
        if vc.closedByPeer then
          some { conn := s, buf := b, n := 0, err := some .eof }
        else if vc.transportLost then
          some { conn := s, buf := b, n := 0, err := some (.other "transport lost") }
        else
          none

/-- One turn of the concurrent tasks around a stream: the server routing loop
on the connection of a peer, the read loop of a peer, or a write of some peer
on one of its streams. -/
inductive Step where
  | route (peer : PeerID)
  | deliver (peer : PeerID)
  | write (src dst : PeerID) (b : List Byte)
  deriving DecidableEq, Repr

/-- The relay after one turn. -/
def Step.apply (s : Net) : Step → Net
  | .route peer => Model.route s peer
  | .deliver peer => Model.deliver s peer
  | .write src dst b => (Write s src dst b).conn

/-- The turn is a write between `A` and `B`, in either direction. -/
def Step.between (A B : PeerID) : Step → Bool
  | .write src dst _ => (src == A && dst == B) || (src == B && dst == A)
  | _ => false

/-- The relay after a schedule of turns, taken in order. -/
def run (s : Net) (σ : List Step) : Net :=
  σ.foldl Step.apply s

/-- The server routes every frame that waits on the way up from `X`. -/
def routeAll (s : Net) (X : PeerID) : Net :=
  run s (List.replicate (s.links X).up.length (.route X))

/-- The read loop of `Y` takes every frame that waits on the way down to `Y`. -/
def deliverAll (s : Net) (Y : PeerID) : Net :=
  run s (List.replicate (s.links Y).down.length (.deliver Y))

/-- Everything `X` has sent reaches the server and everything the server
holds for `Y` reaches the streams of `Y`. -/
def settle (s : Net) (X Y : PeerID) : Net :=
  deliverAll (routeAll s X) Y

/-- The payloads of the `DATA` frames that carry the peer id `p`, in order. -/
def payloadsOf (p : PeerID) (fs : List Frame) : List (List Byte) :=
  fs.filterMap fun f =>
    match f with
    | .DATA q b => if q = p then some b else none
    | _ => none

/-- Some `CLOSE` frame carries the peer id `p`. -/
def hasClose (p : PeerID) (fs : List Frame) : Bool :=
  fs.any fun f =>
    match f with
    | .CLOSE q => decide (q = p)
    | _ => false

/-- Peer `X` holds a live stream to `Y`. -/
def streamLive (s : Net) (X Y : PeerID) : Bool :=
  match (s.clients X).conns Y with
  | some vc => vc.live
  | none => false

/-- The payloads queued on the live stream of `Y` from `X`, oldest first;
nothing when `Y` holds no live stream from `X`. -/
def inboundOf (s : Net) (Y X : PeerID) : List (List Byte) :=
  match (s.clients Y).conns X with
  | some vc => if vc.live then vc.inbound else []
  | none => []

/-- What `B` has still to read from `A`, oldest first: the payloads queued on
its stream, then those on the way down to `B`, then those on the way up from
`A`. -/
def inFlight (s : Net) (A B : PeerID) : List (List Byte) :=
  inboundOf s B A ++ payloadsOf A (s.links B).down ++ payloadsOf B (s.links A).up

/-- No close notice from `A` for `B` is under way. -/
def NoClose (s : Net) (A B : PeerID) : Prop :=
  hasClose B (s.links A).up = false ∧ hasClose A (s.links B).down = false

/-- Peer `A` is registered: the server registry holds it and its client is in
the registered state. -/
def Registered (s : Net) (A : PeerID) : Prop :=
  s.registry A = true ∧ (s.clients A).registered = true

/-- The direction from `A` to `B` is in working order: both are registered,
`B` holds a live stream from `A`, and no close notice from `A` is under way. -/
def Linked (s : Net) (A B : PeerID) : Prop :=
  Registered s A ∧ Registered s B ∧ streamLive s B A = true ∧ NoClose s A B

/-- What one routing turn on the connection of `Z` hands to the connection of
`W`. -/
def routed (s : Net) (Z W : PeerID) : List Frame :=
  if s.registry Z && s.registry W then
    match (s.links Z).up with
    | .DATA D p :: _ => if D = W then [.DATA Z p] else []
    | .CLOSE D :: _ => if D = W then [.CLOSE Z] else []
    | _ => []
  else
    []

/-- The clients of a test connecting one after the other; `none` when a
registration is refused. -/
def connectAll (s : Net) : List PeerID → Option Net
  | [] => some s
  | p :: ps => (Connect s p).toOption.bind fun s1 => connectAll s1 ps

/-- The server of `TestClient` once `alice`, `clientPlaceHolder` and `bob`
are connected. -/
def testNet : Net :=
  (connectAll NewServer ["alice", "clientPlaceHolder", "bob"]).getD NewServer

/-- The server of `TestClient` with traffic of the third client around the
two peers: `clientPlaceHolder` has written to `bob` twice, the first payload
already waits on the way down to `bob` and the second on the way up, and
`alice` has a payload for `clientPlaceHolder` on her way up. -/
def busyNet : Net :=
  let s1 := ((OpenConn testNet "clientPlaceHolder" "bob").toOption).getD testNet
  let s2 := (Write s1 "clientPlaceHolder" "bob" [1]).conn
  let s3 := route s2 "clientPlaceHolder"
  let s4 := (Write s3 "clientPlaceHolder" "bob" [2]).conn
  let s5 := ((OpenConn s4 "alice" "clientPlaceHolder").toOption).getD s4
  (Write s5 "alice" "clientPlaceHolder" [3]).conn

end Model

end Relay

/-! ## `iface/bind/bind.go`

The shared UDP socket and the UDP mux of an `ICEBind` are external resources.
Each is represented by a handle; the calls `Close` makes on them are part of
what `Close` returns, and their answers are arguments of `Close`. -/

namespace Bind

/-- A call that `ICEBind.Close` makes on one of the two resources: `Close` on
the `net.PacketConn` with the given handle, or `Close` on the
`UniversalUDPMuxDefault` with the given handle. -/
inductive ResourceCall where
  | connClose (c : Nat)
  | muxClose (m : Nat)
  deriving DecidableEq, Repr

/-- The struct `ICEBind`: `none` is the Go `nil` of a field, `some h` the
resource with handle `h`. -/
structure ICEBind where
  sharedConn : Option Nat
  udpMux : Option Nat
  transportNet : Option Nat
  deriving DecidableEq, Repr

/-- The constructor `NewICEBind`. -/
def NewICEBind (transportNet : Option Nat) : ICEBind :=
  { sharedConn := none, udpMux := none, transportNet := transportNet }

/-- The method `GetICEMux`. -/
def ICEBind.GetICEMux (b : ICEBind) : Except Relay.GoError Nat :=
  match b.udpMux with
  | none => .error (.other "ICEBind has not been initialized yet")
  | some m => .ok m

/-- What `Close` leaves behind: the bind, the close calls it made on the
resources in the order made, and the returned error. -/
structure CloseOut where
  bind : ICEBind
  calls : List ResourceCall
  err : Option Relay.GoError
  deriving DecidableEq, Repr

/-- The method `Close`; `connErr` is what `c.Close()` on the socket returns
and `muxErr` what `m.Close()` on the mux returns, each used only when that
call is made. -/
def ICEBind.Close (b : ICEBind) (connErr muxErr : Option Relay.GoError) : CloseOut :=
  let step1 : ICEBind × List ResourceCall × Option Relay.GoError :=
    match b.sharedConn with
    | some c => ({ b with sharedConn := none }, [.connClose c], connErr)
    | none => (b, [], none)
  let b1 := step1.1
  let err1 := step1.2.2
  let step2 : ICEBind × List ResourceCall × Option Relay.GoError :=
    match b1.udpMux with
    | some m => ({ b1 with udpMux := none }, [.muxClose m], muxErr)
    | none => (b1, [], none)
  let err2 := step2.2.2
  match err1 with
  | some e => { bind := step2.1, calls := step1.2.1 ++ step2.2.1, err := some e }
  | none => { bind := step2.1, calls := step1.2.1 ++ step2.2.1, err := err2 }

end Bind

/-! ## Helper lemmas -/

namespace Relay

theorem closeCount_call_close (s : Session) (code : Nat) (reason : String) :
    (s.call (.CloseWithError code reason)).closeCount = s.closeCount + 1 := by
  simp [Session.call, Session.closeCount, List.filter_append]

theorem isNormalClosure_iff_errorsAs (e : GoError) :
    e.isNormalClosure = true ↔ ∃ a, errorsAs e = some a ∧ a.ErrorCode = 0 := by
  induction e with
  | eof => simp [GoError.isNormalClosure, GoError.chain, errorsAs]
  | app a => simp [GoError.isNormalClosure, GoError.chain, errorsAs]
  | other msg => simp [GoError.isNormalClosure, GoError.chain, errorsAs]
  | wrap msg inner ih =>
    simp only [GoError.isNormalClosure, GoError.chain, errorsAs, List.any_cons, Bool.false_or]
    exact ih

theorem copy_fst (dst src : List Byte) : (copy dst src).1 = min dst.length src.length := rfl

theorem copy_snd (dst src : List Byte) :
    (copy dst src).2 = src.take (min dst.length src.length) ++ dst.drop (min dst.length src.length) :=
  rfl

theorem copy_length (dst src : List Byte) : (copy dst src).2.length = dst.length := by
  simp only [copy_snd, List.length_append, List.length_take, List.length_drop]
  omega

theorem copy_take (dst src : List Byte) :
    (copy dst src).2.take (min dst.length src.length) = src.take (min dst.length src.length) := by
  rw [copy_snd, List.take_append_of_le_length (by simp)]
  simp

theorem copy_drop (dst src : List Byte) :
    (copy dst src).2.drop (min dst.length src.length) = dst.drop (min dst.length src.length) := by
  rw [copy_snd, List.drop_append_of_le_length (by simp)]
  simp

namespace Listener

theorem Close_closed (c : Conn) (r : Option GoError) : (c.Close r).1.closed = true := by
  unfold Conn.Close
  split <;> simp_all

theorem Close_of_closed (c : Conn) (r : Option GoError) (h : c.closed = true) :
    c.Close r = (c, none) := by
  simp [Conn.Close, h]

theorem CloseSeq_of_closed (c : Conn) (rs : List (Option GoError)) (h : c.closed = true) :
    c.CloseSeq rs = (c, List.replicate rs.length none) := by
  induction rs with
  | nil => rfl
  | cons r rs ih => simp [Conn.CloseSeq, Close_of_closed c r h, ih, List.replicate_succ]

theorem Read_closed (c : Conn) (b : List Byte) (recv : Except GoError (List Byte)) :
    (c.Read b recv).conn.closed = c.closed := by
  unfold Conn.Read
  split
  · rfl
  · split <;> rfl

theorem Write_closed (c : Conn) (b : List Byte) (sendErr : Option GoError) :
    (c.Write b sendErr).conn.closed = c.closed := rfl

theorem ReadInFlight_id (c : Conn) (b : List Byte) (recv : Except GoError (List Byte)) :
    c.ReadInFlight b id recv = c.Read b recv := rfl

end Listener

end Relay

/-! ## The listener-side `Conn` -/

namespace Relay

/-- C1: on a listener-side connection on which `Close` has not run yet, any
sequence of one or more `Close` calls invokes `CloseWithError` on the session
exactly once, in the first call; the closed flag is true afterwards; every
later call returns nil and leaves the connection, and so the session, exactly
as the first call left it. -/
theorem Listener.close_idempotent (c : Listener.Conn) (r : Option GoError)
    (rs : List (Option GoError)) (h : c.closed = false) :
    (c.CloseSeq (r :: rs)).1 = (c.Close r).1 ∧
    (c.CloseSeq (r :: rs)).1.closed = true ∧
    (c.CloseSeq (r :: rs)).1.session.calls
      = c.session.calls ++ [SessionCall.CloseWithError 0 "normal closure"] ∧
    (c.CloseSeq (r :: rs)).1.session.closeCount = c.session.closeCount + 1 ∧
    (c.CloseSeq (r :: rs)).2 = r :: List.replicate rs.length none := by
  have hc : (c.Close r).1.closed = true := Listener.Close_closed c r
  have hseq : (c.CloseSeq (r :: rs)) = ((c.Close r).1, (c.Close r).2 :: List.replicate rs.length none) := by
    simp [Listener.Conn.CloseSeq, Listener.CloseSeq_of_closed _ rs hc]
  have hfirst : c.Close r =
      ({ session := c.session.call (.CloseWithError 0 "normal closure"), closed := true,
         ctxDone := true }, r) := by
    simp [Listener.Conn.Close, h]
  rw [hseq, hfirst]
  refine ⟨rfl, rfl, rfl, ?_, rfl⟩
  exact closeCount_call_close _ _ _

/-- Witness of C1: a fresh connection closed three times. -/
theorem Listener.close_idempotent_witness :
    (Listener.NewConn { calls := [] }).closed = false ∧
    ((Listener.NewConn { calls := [] }).CloseSeq [none, none, none]).1.session.closeCount = 1 ∧
    ((Listener.NewConn { calls := [] }).CloseSeq [none, none, none]).2 = [none, none, none] :=
  ⟨rfl,
   (Listener.close_idempotent (Listener.NewConn { calls := [] }) none [none, none] rfl).2.2.2.1,
   (Listener.close_idempotent (Listener.NewConn { calls := [] }) none [none, none] rfl).2.2.2.2⟩

/-- C2: once `Close` has set the closed flag of a listener-side connection, a
`Read` returns `(0, io.EOF)` without calling `ReceiveDatagram` and without
writing to the caller buffer, whatever the session would have answered, and
`ioErrHandling` maps every receive error to `io.EOF`.  The flag is set by
every `Close`; and a `Read` that was already waiting in `ReceiveDatagram`
when `Close` ran, and then sees the receive fail, returns `(0, io.EOF)` with
the buffer untouched as well. -/
theorem Listener.read_after_close (c : Listener.Conn) (h : c.closed = true) (b : List Byte)
    (recv : Except GoError (List Byte)) (e : GoError) (c0 : Listener.Conn)
    (r : Option GoError) :
    c.Read b recv = { conn := c, buf := b, n := 0, err := some .eof } ∧
    (c.Read b recv).conn.session.receiveCount = c.session.receiveCount ∧
    c.ioErrHandling (some e) = some .eof ∧
    (c0.Close r).1.closed = true ∧
    (c0.ReadInFlight b (fun x => (x.Close r).1) (.error e)).buf = b ∧
    (c0.ReadInFlight b (fun x => (x.Close r).1) (.error e)).n = 0 ∧
    (c0.ReadInFlight b (fun x => (x.Close r).1) (.error e)).err = some .eof := by
  have hread : c.Read b recv = { conn := c, buf := b, n := 0, err := some .eof } := by
    simp [Listener.Conn.Read, Listener.Conn.isClosed, h]
  refine ⟨hread, by rw [hread], ?_, Listener.Close_closed c0 r, ?_, ?_, ?_⟩
  · simp [Listener.Conn.ioErrHandling, Listener.Conn.isClosed, h]
  · unfold Listener.Conn.ReadInFlight
    split <;> rfl
  · unfold Listener.Conn.ReadInFlight
    split <;> rfl
  · unfold Listener.Conn.ReadInFlight
    split
    · rfl
    · simp [Listener.Conn.ioErrHandling, Listener.Conn.isClosed, Listener.Close_closed]

/-- Witness of C2: a connection that was closed, then read with a datagram
and a transport fault on offer. -/
theorem Listener.read_after_close_witness :
    ((Listener.NewConn { calls := [] }).Close none).1.closed = true ∧
    (((Listener.NewConn { calls := [] }).Close none).1.Read [1, 2] (.ok [7, 8, 9])).err
      = some .eof ∧
    (((Listener.NewConn { calls := [] }).Close none).1.Read [1, 2] (.ok [7, 8, 9])).buf
      = [1, 2] :=
  ⟨rfl,
   congrArg ReadOut.err
     (Listener.read_after_close ((Listener.NewConn { calls := [] }).Close none).1 rfl [1, 2]
       (.ok [7, 8, 9]) (.other "timeout") (Listener.NewConn { calls := [] }) none).1,
   congrArg ReadOut.buf
     (Listener.read_after_close ((Listener.NewConn { calls := [] }).Close none).1 rfl [1, 2]
       (.ok [7, 8, 9]) (.other "timeout") (Listener.NewConn { calls := [] }) none).1⟩

/-- C3: on a listener-side connection that has not been closed locally, a
`Read` whose `ReceiveDatagram` fails with `e` returns `(0, io.EOF)` when `e`
is or wraps an application error with error code 0, and `(0, e)` with `e`
unchanged for every other error; the buffer is untouched either way, and
`io.EOF` is reported only for a normal closure or when the session error is
`io.EOF` itself. -/
theorem Listener.read_error_mapping (c : Listener.Conn) (h : c.closed = false) (b : List Byte)
    (e : GoError) :
    (c.Read b (.error e)).n = 0 ∧
    (c.Read b (.error e)).buf = b ∧
    (e.isNormalClosure = true → (c.Read b (.error e)).err = some .eof) ∧
    (e.isNormalClosure = false → (c.Read b (.error e)).err = some e) ∧
    ((c.Read b (.error e)).err = some .eof → e.isNormalClosure = true ∨ e = .eof) := by
  have hread : c.Read b (.error e) =
      { conn := { c with session := c.session.call .ReceiveDatagram }, buf := b, n := 0,
        err := if e.isNormalClosure then some .eof else some e } := by
    simp only [Listener.Conn.Read, Listener.Conn.isClosed, h, Bool.false_eq_true, if_false,
      Listener.Conn.ioErrHandling]
    congr 1
    cases hn : e.isNormalClosure with
    | true =>
      obtain ⟨a, ha, hz⟩ := (isNormalClosure_iff_errorsAs e).1 hn
      simp [ha, hz]
    | false =>
      cases ha : errorsAs e with
      | none => simp
      | some a =>
        have hz : a.ErrorCode ≠ 0 := by
          intro hz
          have := (isNormalClosure_iff_errorsAs e).2 ⟨a, ha, hz⟩
          simp [hn] at this
        simp [hz]
  rw [hread]
  refine ⟨rfl, rfl, ?_, ?_, ?_⟩
  · intro hn
    simp [hn]
  · intro hn
    simp [hn]
  · intro hout
    cases hn : e.isNormalClosure with
    | true => exact Or.inl rfl
    | false =>
      simp [hn] at hout
      exact Or.inr hout

/-- Witness of C3: a wrapped remote normal closure on an open connection. -/
theorem Listener.read_error_mapping_witness :
    (Listener.NewConn { calls := [] }).closed = false ∧
    ((Listener.NewConn { calls := [] }).Read [1, 2]
      (.error (.wrap "receive" (.app { Remote := true, ErrorCode := 0, ErrorMessage := "bye" })))).err
      = some .eof :=
  ⟨rfl,
   (Listener.read_error_mapping (Listener.NewConn { calls := [] }) rfl [1, 2]
     (.wrap "receive" (.app { Remote := true, ErrorCode := 0, ErrorMessage := "bye" }))).2.2.1 rfl⟩

end Relay

/-! ## Both variants: `Read`, `Write` and the deadline setters -/

namespace Relay

/-- C4: for the listener-side connection (not closed) and the dialer-side
connection alike, a `Read` that receives the datagram `d` into the buffer `b`
returns `n = min(len(b), len(d))` and a nil error; afterwards the first `n`
bytes of the buffer are the first `n` bytes of `d`, the bytes from position
`n` on are unchanged, and the buffer has kept its length, so a datagram
longer than the buffer is cut to `len(b)` without error. -/
theorem read_copies_datagram (cl : Listener.Conn) (cd : Dialer.Conn) (b d : List Byte)
    (h : cl.closed = false) :
    ((cl.Read b (.ok d)).n = min b.length d.length ∧
      (cl.Read b (.ok d)).err = none ∧
      (cl.Read b (.ok d)).buf.take (min b.length d.length) = d.take (min b.length d.length) ∧
      (cl.Read b (.ok d)).buf.drop (min b.length d.length) = b.drop (min b.length d.length) ∧
      (cl.Read b (.ok d)).buf.length = b.length) ∧
    ((cd.Read b (.ok d)).n = min b.length d.length ∧
      (cd.Read b (.ok d)).err = none ∧
      (cd.Read b (.ok d)).buf.take (min b.length d.length) = d.take (min b.length d.length) ∧
      (cd.Read b (.ok d)).buf.drop (min b.length d.length) = b.drop (min b.length d.length) ∧
      (cd.Read b (.ok d)).buf.length = b.length) := by
  have hl : cl.Read b (.ok d) =
      { conn := { cl with session := cl.session.call .ReceiveDatagram }, buf := (copy b d).2,
        n := (copy b d).1, err := none } := by
    simp [Listener.Conn.Read, Listener.Conn.isClosed, h]
  have hd : cd.Read b (.ok d) =
      { conn := { cd with session := cd.session.call .ReceiveDatagram }, buf := (copy b d).2,
        n := (copy b d).1, err := none } := rfl
  rw [hl, hd]
  exact ⟨⟨copy_fst b d, rfl, copy_take b d, copy_drop b d, copy_length b d⟩,
    ⟨copy_fst b d, rfl, copy_take b d, copy_drop b d, copy_length b d⟩⟩

/-- Witness of C4: a three byte datagram read into a two byte buffer. -/
theorem read_copies_datagram_witness :
    (Listener.NewConn { calls := [] }).closed = false ∧
    ((Listener.NewConn { calls := [] }).Read [1, 2] (.ok [7, 8, 9])).n = 2 ∧
    ((Dialer.NewConn { calls := [] } "relay:443").Read [1, 2] (.ok [7, 8, 9])).n = 2 :=
  ⟨rfl,
   (read_copies_datagram (Listener.NewConn { calls := [] })
     (Dialer.NewConn { calls := [] } "relay:443") [1, 2] [7, 8, 9] rfl).1.1,
   (read_copies_datagram (Listener.NewConn { calls := [] })
     (Dialer.NewConn { calls := [] } "relay:443") [1, 2] [7, 8, 9] rfl).2.1⟩

/-- C5: on both variants one `Write` of the byte slice `b` adds exactly one
call to the session, `SendDatagram` with the payload `b` itself, whatever the
session answers; when the send succeeds `Write` returns `(len(b), nil)`. -/
theorem write_sends_one_datagram (cl : Listener.Conn) (cd : Dialer.Conn) (b : List Byte)
    (sendErr : Option GoError) :
    (cl.Write b sendErr).conn.session.calls = cl.session.calls ++ [SessionCall.SendDatagram b] ∧
    (cd.Write b sendErr).conn.session.calls = cd.session.calls ++ [SessionCall.SendDatagram b] ∧
    (cl.Write b none).n = b.length ∧ (cl.Write b none).err = none ∧
    (cd.Write b none).n = b.length ∧ (cd.Write b none).err = none := by
  refine ⟨rfl, ?_, rfl, rfl, rfl, rfl⟩
  cases sendErr <;> rfl

/-- C6, refuted as stated: the listener-side `SetReadDeadline` and the
dialer-side `SetDeadline` return nil for a time that is not the zero time. -/
theorem deadline_nonzero_accepted :
    Time.IsZero { sec := 1700000000, nsec := 0 } = false ∧
    (Listener.NewConn { calls := [] }).SetReadDeadline { sec := 1700000000, nsec := 0 } = none ∧
    (Dialer.NewConn { calls := [] } "relay:443").SetDeadline { sec := 1700000000, nsec := 0 }
      = none := by
  decide

/-- C6, amended: no deadline setter looks at its time argument.  On the
listener side `SetWriteDeadline` and `SetDeadline`, and on the dialer side
`SetReadDeadline` and `SetWriteDeadline`, return a non-nil "not implemented"
error for every time, the zero time included; the listener-side
`SetReadDeadline` and the dialer-side `SetDeadline` return nil for every
time. -/
theorem deadline_setters (cl : Listener.Conn) (cd : Dialer.Conn) (t : Time) :
    cl.SetReadDeadline t = none ∧
    cl.SetWriteDeadline t = some (.other "SetWriteDeadline is not implemented") ∧
    cl.SetDeadline t = some (.other "SetDeadline is not implemented") ∧
    cd.SetReadDeadline t = some (.other "SetReadDeadline is not implemented") ∧
    cd.SetWriteDeadline t = some (.other "SetWriteDeadline is not implemented") ∧
    cd.SetDeadline t = none :=
  ⟨rfl, rfl, rfl, rfl, rfl, rfl⟩

/-- C10: when `SendDatagram` fails with `e`, the dialer-side `Write` returns
`(0, e)` and the listener-side `Write` returns `(len(b), e)`; when it
succeeds both return `(len(b), nil)`; hence the two returned pairs are equal
exactly when the send succeeded or `b` is empty. -/
theorem write_results_compared (cl : Listener.Conn) (cd : Dialer.Conn) (b : List Byte)
    (e : GoError) (sendErr : Option GoError) :
    ((cd.Write b (some e)).n, (cd.Write b (some e)).err) = (0, some e) ∧
    ((cl.Write b (some e)).n, (cl.Write b (some e)).err) = (b.length, some e) ∧
    ((cd.Write b none).n, (cd.Write b none).err) = (b.length, none) ∧
    ((cl.Write b none).n, (cl.Write b none).err) = (b.length, none) ∧
    (((cd.Write b sendErr).n, (cd.Write b sendErr).err)
        = ((cl.Write b sendErr).n, (cl.Write b sendErr).err)
      ↔ sendErr = none ∨ b = []) := by
  refine ⟨rfl, rfl, rfl, rfl, ?_⟩
  cases sendErr with
  | none => simp [Dialer.Conn.Write, Listener.Conn.Write]
  | some err =>
    simp only [Dialer.Conn.Write, Listener.Conn.Write, Prod.mk.injEq, and_true, reduceCtorEq,
      false_or]
    constructor
    · intro hlen
      exact List.length_eq_zero.mp hlen.symm
    · intro hb
      simp [hb]

end Relay

/-! ## The dialer-side `Conn` -/

namespace Relay

/-- C7, refuted as stated: a second `Close` on a dialer-side connection
invokes `CloseWithError` on the session a second time, and it returns the
error of that second call. -/
theorem Dialer.close_twice_counterexample :
    (((Dialer.NewConn { calls := [] } "relay:443").Close none).1.Close
        (some (.other "already closed"))).1.session.calls
      = [SessionCall.CloseWithError 0 "normal closure",
         SessionCall.CloseWithError 0 "normal closure"] ∧
    (((Dialer.NewConn { calls := [] } "relay:443").Close none).1.Close
        (some (.other "already closed"))).2 ≠ none := by
  decide

/-- C7, amended: the dialer-side `Close` keeps no closed state; every call,
the second included, invokes `CloseWithError(0, "normal closure")` on the
session once more and returns what the session returns, so a repeated `Close`
returns nil exactly when the session answers nil. -/
theorem Dialer.close_forwards (c : Dialer.Conn) (r1 r2 : Option GoError) :
    (c.Close r1).1.session.calls
      = c.session.calls ++ [SessionCall.CloseWithError 0 "normal closure"] ∧
    (c.Close r1).2 = r1 ∧
    ((c.Close r1).1.Close r2).1.session.calls
      = c.session.calls ++ [SessionCall.CloseWithError 0 "normal closure",
          SessionCall.CloseWithError 0 "normal closure"] ∧
    ((c.Close r1).1.Close r2).1.session.closeCount = c.session.closeCount + 2 ∧
    ((c.Close r1).1.Close r2).2 = r2 := by
  refine ⟨rfl, rfl, ?_, ?_, rfl⟩
  · simp [Dialer.Conn.Close, Session.call]
  · simp only [Dialer.Conn.Close, closeCount_call_close]

/-- C8, refuted as stated: a dialer-side `Read` whose `ReceiveDatagram` fails
with a remote normal closure, or with the local close of the connection,
returns that application error and not `io.EOF`. -/
theorem Dialer.read_normal_closure_counterexample :
    ((Dialer.NewConn { calls := [] } "relay:443").Read [0, 0]
        (.error (.app { Remote := true, ErrorCode := 0, ErrorMessage := "normal closure" }))).err
      ≠ some .eof ∧
    (((Dialer.NewConn { calls := [] } "relay:443").Close none).1.Read [0, 0]
        (.error (.app { Remote := false, ErrorCode := 0, ErrorMessage := "normal closure" }))).err
      ≠ some .eof := by
  decide

/-- C8, amended: a dialer-side `Read` whose `ReceiveDatagram` fails returns
`(0, err)` with the session error unchanged and the buffer untouched, for
every error, a remote normal closure and a local close included; the result
is `io.EOF` only when the session error is `io.EOF` itself. -/
theorem Dialer.read_error_passthrough (c : Dialer.Conn) (b : List Byte) (e : GoError) :
    (c.Read b (.error e)).n = 0 ∧
    (c.Read b (.error e)).err = some e ∧
    (c.Read b (.error e)).buf = b ∧
    ((c.Read b (.error e)).err = some .eof ↔ e = .eof) := by
  refine ⟨rfl, rfl, rfl, ?_⟩
  simp [Dialer.Conn.Read]

end Relay
/-! ## The relay round trip -/

namespace Relay.Model

theorem forward_registry (s : Net) (D : PeerID) (f : Frame) :
    (forward s D f).registry = s.registry := by
  unfold forward; split <;> rfl

theorem forward_clients (s : Net) (D : PeerID) (f : Frame) :
    (forward s D f).clients = s.clients := by
  unfold forward; split <;> rfl

theorem forward_up (s : Net) (D : PeerID) (f : Frame) (W : PeerID) :
    ((forward s D f).links W).up = (s.links W).up := by
  unfold forward
  split
  · by_cases h : W = D
    · subst h; simp
    · simp [Function.update_noteq h]
  · rfl

theorem forward_down (s : Net) (D : PeerID) (f : Frame) (W : PeerID) :
    ((forward s D f).links W).down
      = (s.links W).down ++ (if W = D ∧ s.registry D = true then [f] else []) := by
  unfold forward
  by_cases hD : s.registry D = true
  · by_cases h : W = D
    · subst h; simp [hD]
    · simp [Function.update_noteq h, hD, h]
  · simp [hD]

theorem route_registry (s : Net) (Z : PeerID) : (route s Z).registry = s.registry := by
  cases hr : s.registry Z <;> cases hu : (s.links Z).up <;> simp only [route, hr, hu]
  all_goals try rfl
  rename_i f rest
  cases f <;> simp [forward_registry]

theorem route_clients (s : Net) (Z : PeerID) : (route s Z).clients = s.clients := by
  cases hr : s.registry Z <;> cases hu : (s.links Z).up <;> simp only [route, hr, hu]
  all_goals try rfl
  rename_i f rest
  cases f <;> simp [forward_clients]

theorem route_up (s : Net) (Z W : PeerID) :
    ((route s Z).links W).up
      = if W = Z ∧ s.registry Z = true then (s.links W).up.tail else (s.links W).up := by
  cases hr : s.registry Z <;> cases hu : (s.links Z).up <;> simp only [route, hr, hu]
  · simp
  · simp
  · by_cases hW : W = Z
    · subst hW; simp [hu]
    · simp [hW]
  · rename_i f rest
    by_cases hW : W = Z
    · subst hW
      cases f <;> simp [forward_up, hu]
    · cases f <;> simp [forward_up, hW, Function.update_noteq hW]

theorem route_down (s : Net) (Z W : PeerID) :
    ((route s Z).links W).down = (s.links W).down ++ routed s Z W := by
  cases hr : s.registry Z <;> cases hu : (s.links Z).up <;>
    simp only [route, routed, hr, hu]
  · simp
  · simp
  · simp
  · rename_i f rest
    by_cases hW : W = Z
    · subst hW
      cases f with
      | DATA D p =>
        by_cases hD : D = W
        · subst hD; simp [forward_down, hr]
        · simp [forward_down, hD, Ne.symm hD]
      | CLOSE D =>
        by_cases hD : D = W
        · subst hD; simp [forward_down, hr]
        · simp [forward_down, hD, Ne.symm hD]
      | _ => simp
    · cases f with
      | DATA D p =>
        by_cases hD : D = W
        · subst hD; cases hD2 : s.registry D <;> simp [forward_down, hD2, Function.update_noteq hW]
        · simp [forward_down, hD, Ne.symm hD, Function.update_noteq hW]
      | CLOSE D =>
        by_cases hD : D = W
        · subst hD; cases hD2 : s.registry D <;> simp [forward_down, hD2, Function.update_noteq hW]
        · simp [forward_down, hD, Ne.symm hD, Function.update_noteq hW]
      | _ => simp [Function.update_noteq hW]


theorem deliver_registry (s : Net) (Z : PeerID) : (deliver s Z).registry = s.registry := by
  cases hd : (s.links Z).down <;> simp only [deliver, hd]
  rename_i f rest
  cases f <;> simp
  split <;> rfl

theorem deliver_up (s : Net) (Z W : PeerID) :
    ((deliver s Z).links W).up = (s.links W).up := by
  have key : ∀ rest : List Frame,
      (Function.update s.links Z { up := (s.links Z).up, down := rest } W).up = (s.links W).up := by
    intro rest
    by_cases hW : W = Z
    · subst hW; simp
    · simp [Function.update_noteq hW]
  cases hd : (s.links Z).down <;> simp only [deliver, hd]
  rename_i f rest
  cases f <;> simp [key]
  split <;> simp [key]

theorem deliver_down (s : Net) (Z W : PeerID) :
    ((deliver s Z).links W).down
      = if W = Z then (s.links W).down.tail else (s.links W).down := by
  have key : (Function.update s.links Z { up := (s.links Z).up, down := (s.links Z).down.tail }
      W).down = if W = Z then (s.links W).down.tail else (s.links W).down := by
    by_cases hW : W = Z
    · subst hW; simp
    · simp [Function.update_noteq hW, hW]
  cases hd : (s.links Z).down with
  | nil =>
    simp only [deliver, hd]
    by_cases hW : W = Z
    · subst hW; simp [hd]
    · simp [hW]
  | cons f rest =>
    rw [hd] at key
    simp only [List.tail_cons] at key
    simp only [deliver, hd]
    cases f <;> simp [key]
    split <;> simp [key]

theorem deliver_clients_other (s : Net) (Z W : PeerID) (h : W ≠ Z) :
    (deliver s Z).clients W = s.clients W := by
  cases hd : (s.links Z).down <;> simp only [deliver, hd]
  rename_i f rest
  cases f <;> simp [Function.update_noteq h]
  split <;> simp [Function.update_noteq h]

theorem deliver_registered (s : Net) (Z W : PeerID) :
    ((deliver s Z).clients W).registered = (s.clients W).registered := by
  by_cases h : W = Z
  · subst h
    cases hd : (s.links W).down <;> simp only [deliver, hd]
    rename_i f rest
    cases f <;> simp
    split <;> simp
  · rw [deliver_clients_other s Z W h]

theorem deliver_stream (s : Net) (B A : PeerID) (v : VirtualConnection)
    (hv : (s.clients B).conns A = some v) (hl : v.live = true)
    (hc : hasClose A (s.links B).down = false) :
    ((deliver s B).clients B).conns A
      = some { v with inbound := v.inbound ++ payloadsOf A ((s.links B).down.take 1) } := by
  cases hd : (s.links B).down with
  | nil => simp [deliver, hd, payloadsOf, hv]
  | cons f rest =>
    rw [hd] at hc
    simp only [deliver, hd]
    cases f with
    | DATA src p =>
      by_cases hs : src = A
      · subst hs
        simp [hv, hl, payloadsOf]
      · simp [hv, payloadsOf, hs, Function.update_noteq (Ne.symm hs)]
    | CLOSE src =>
      have hs : src ≠ A := by
        intro h
        simp [hasClose, h] at hc
      simp only [payloadsOf, List.take_succ_cons, List.take_zero, List.filterMap_cons,
        List.filterMap_nil, List.append_nil]
      split <;> simp [hv, Function.update_noteq (Ne.symm hs)]
    | _ => simp [hv, payloadsOf]


theorem payloadsOf_append (p : PeerID) (l1 l2 : List Frame) :
    payloadsOf p (l1 ++ l2) = payloadsOf p l1 ++ payloadsOf p l2 := by
  simp [payloadsOf, List.filterMap_append]

theorem payloadsOf_take_tail (p : PeerID) (l : List Frame) :
    payloadsOf p (l.take 1) ++ payloadsOf p l.tail = payloadsOf p l := by
  cases l with
  | nil => rfl
  | cons f rest => rw [← payloadsOf_append]; simp

theorem hasClose_append (p : PeerID) (l1 l2 : List Frame) :
    hasClose p (l1 ++ l2) = (hasClose p l1 || hasClose p l2) := by
  simp [hasClose, List.any_append]

theorem hasClose_tail (p : PeerID) (l : List Frame) (h : hasClose p l = false) :
    hasClose p l.tail = false := by
  cases l with
  | nil => rfl
  | cons f rest =>
    simp only [hasClose, List.any_cons, Bool.or_eq_false_iff] at h
    exact h.2

theorem routed_noClose (s : Net) (Z A B : PeerID)
    (h : hasClose B (s.links A).up = false) : hasClose A (routed s Z B) = false := by
  unfold routed
  split
  · split
    · split <;> simp [hasClose]
    · rename_i D rest hu
      split
      · rename_i hD
        subst hD
        by_cases hZ : Z = A
        · subst hZ
          rw [hu] at h
          simp [hasClose] at h
        · simp [hasClose, hZ]
      · simp [hasClose]
    · simp [hasClose]
  · simp [hasClose]

theorem routed_payloads (s : Net) (Z A B : PeerID) (hA : s.registry A = true)
    (hB : s.registry B = true) :
    payloadsOf A (routed s Z B) ++ payloadsOf B ((route s Z).links A).up
      = payloadsOf B (s.links A).up := by
  rw [route_up]
  by_cases hZ : Z = A
  · subst hZ
    simp only [routed, hA, hB, Bool.and_self, if_true, and_self]
    cases hu : (s.links Z).up with
    | nil => simp [payloadsOf]
    | cons f rest =>
      cases f with
      | DATA D p =>
        by_cases hD : D = B
        · subst hD; simp [payloadsOf]
        · simp [payloadsOf, hD]
      | CLOSE D =>
        by_cases hD : D = B
        · subst hD; simp [payloadsOf]
        · simp [payloadsOf, hD]
      | _ => simp [payloadsOf]
  · have hZ' : ¬ A = Z := fun h => hZ h.symm
    simp only [hZ', false_and, if_false, List.append_left_eq_self]
    unfold routed
    split
    · split
      · split <;> simp [payloadsOf, hZ]
      · split <;> simp [payloadsOf]
      · simp [payloadsOf]
    · simp [payloadsOf]

theorem write_registry (s : Net) (X Y : PeerID) (b : List Byte) :
    (Write s X Y b).conn.registry = s.registry := by
  cases hv : (s.clients X).conns Y with
  | none => simp [Write, hv]
  | some vc => cases hok : ((s.clients X).registered && vc.live) <;> simp [Write, hv, hok]

theorem write_clients (s : Net) (X Y : PeerID) (b : List Byte) :
    (Write s X Y b).conn.clients = s.clients := by
  cases hv : (s.clients X).conns Y with
  | none => simp [Write, hv]
  | some vc => cases hok : ((s.clients X).registered && vc.live) <;> simp [Write, hv, hok]

theorem write_down (s : Net) (X Y : PeerID) (b : List Byte) (W : PeerID) :
    ((Write s X Y b).conn.links W).down = (s.links W).down := by
  cases hv : (s.clients X).conns Y with
  | none => simp [Write, hv]
  | some vc =>
    cases hok : ((s.clients X).registered && vc.live) <;> simp [Write, hv, hok]
    by_cases hW : W = X
    · subst hW; simp
    · simp [Function.update_noteq hW]

theorem write_up (s : Net) (X Y : PeerID) (b : List Byte) (W : PeerID) :
    ((Write s X Y b).conn.links W).up
      = (s.links W).up ++
        (if W = X ∧ ((s.clients X).registered && streamLive s X Y) = true
          then [Frame.DATA Y b] else []) := by
  cases hv : (s.clients X).conns Y with
  | none => simp [Write, streamLive, hv]
  | some vc =>
    cases hok : ((s.clients X).registered && vc.live)
    · simp [Write, streamLive, hv, hok]
    · simp only [Write, streamLive, hv, hok, if_true, and_true]
      by_cases hW : W = X
      · subst hW; simp
      · simp [Function.update_noteq hW, hW]

theorem write_ok (s : Net) (X Y : PeerID) (b : List Byte)
    (hr : (s.clients X).registered = true) (hl : streamLive s X Y = true) :
    (Write s X Y b).n = b.length ∧ (Write s X Y b).err = none := by
  cases hv : (s.clients X).conns Y with
  | none => simp [streamLive, hv] at hl
  | some vc =>
    simp only [streamLive, hv] at hl
    simp [Write, hv, hr, hl]


theorem streamLive_iff (s : Net) (X Y : PeerID) :
    streamLive s X Y = true ↔ ∃ v, (s.clients X).conns Y = some v ∧ v.live = true := by
  unfold streamLive
  cases (s.clients X).conns Y <;> simp

theorem inboundOf_of_live (s : Net) (Y X : PeerID) (v : VirtualConnection)
    (hv : (s.clients Y).conns X = some v) (hl : v.live = true) :
    inboundOf s Y X = v.inbound := by
  simp [inboundOf, hv, hl]

theorem route_linked (s : Net) (Z A B : PeerID) (h : Linked s A B) :
    Linked (route s Z) A B ∧ inFlight (route s Z) A B = inFlight s A B := by
  obtain ⟨⟨hrA, hcA⟩, ⟨hrB, hcB⟩, hlive, hc1, hc2⟩ := h
  refine ⟨⟨⟨?_, ?_⟩, ⟨?_, ?_⟩, ?_, ?_, ?_⟩, ?_⟩
  · rw [route_registry]; exact hrA
  · rw [route_clients]; exact hcA
  · rw [route_registry]; exact hrB
  · rw [route_clients]; exact hcB
  · simpa [streamLive, route_clients] using hlive
  · rw [route_up]
    split
    · exact hasClose_tail _ _ hc1
    · exact hc1
  · rw [route_down, hasClose_append, hc2, routed_noClose s Z A B hc1]
    rfl
  · unfold inFlight inboundOf
    rw [route_clients, route_down, payloadsOf_append, List.append_assoc, List.append_assoc,
      routed_payloads s Z A B hrA hrB, List.append_assoc]

theorem deliver_linked (s : Net) (Z A B : PeerID) (h : Linked s A B) :
    Linked (deliver s Z) A B ∧ inFlight (deliver s Z) A B = inFlight s A B := by
  obtain ⟨⟨hrA, hcA⟩, ⟨hrB, hcB⟩, hlive, hc1, hc2⟩ := h
  have hreg : Registered (deliver s Z) A ∧ Registered (deliver s Z) B := by
    refine ⟨⟨?_, ?_⟩, ⟨?_, ?_⟩⟩
    · rw [deliver_registry]; exact hrA
    · rw [deliver_registered]; exact hcA
    · rw [deliver_registry]; exact hrB
    · rw [deliver_registered]; exact hcB
  have hup : hasClose B ((deliver s Z).links A).up = false := by
    rw [deliver_up]; exact hc1
  by_cases hZ : Z = B
  · subst hZ
    obtain ⟨v, hv, hl⟩ := (streamLive_iff s Z A).1 hlive
    have hst := deliver_stream s Z A v hv hl hc2
    have hl' : ({ v with inbound := v.inbound ++ payloadsOf A ((s.links Z).down.take 1) } :
        VirtualConnection).live = true := hl
    refine ⟨⟨hreg.1, hreg.2, (streamLive_iff _ Z A).2 ⟨_, hst, hl'⟩, hup, ?_⟩, ?_⟩
    · rw [deliver_down, if_pos rfl]
      exact hasClose_tail _ _ hc2
    · unfold inFlight
      rw [inboundOf_of_live _ Z A _ hst hl', inboundOf_of_live s Z A v hv hl, deliver_down,
        if_pos rfl, deliver_up]
      simp only [List.append_assoc]
      rw [← List.append_assoc (payloadsOf A _), payloadsOf_take_tail]
  · have hB : B ≠ Z := fun h => hZ h.symm
    have hcl : (deliver s Z).clients B = s.clients B := deliver_clients_other s Z B hB
    have hdn : ((deliver s Z).links B).down = (s.links B).down := by
      rw [deliver_down, if_neg hB]
    refine ⟨⟨hreg.1, hreg.2, ?_, hup, ?_⟩, ?_⟩
    · simpa [streamLive, hcl] using hlive
    · rw [hdn]; exact hc2
    · unfold inFlight inboundOf
      rw [hcl, hdn, deliver_up]

theorem write_linked (s : Net) (X Y : PeerID) (b : List Byte) (A B : PeerID)
    (hxy : ¬ (X = A ∧ Y = B)) (h : Linked s A B) :
    Linked (Write s X Y b).conn A B ∧ inFlight (Write s X Y b).conn A B = inFlight s A B := by
  obtain ⟨⟨hrA, hcA⟩, ⟨hrB, hcB⟩, hlive, hc1, hc2⟩ := h
  have hextra : ∀ c : Prop, ∀ _ : Decidable c,
      payloadsOf B (if A = X ∧ c then [Frame.DATA Y b] else []) = [] ∧
      hasClose B (if A = X ∧ c then [Frame.DATA Y b] else []) = false := by
    intro c _
    split
    · rename_i hc
      have hY : ¬ Y = B := fun hy => hxy ⟨hc.1.symm, hy⟩
      simp [payloadsOf, hasClose, hY]
    · simp [payloadsOf, hasClose]
  refine ⟨⟨⟨?_, ?_⟩, ⟨?_, ?_⟩, ?_, ?_, ?_⟩, ?_⟩
  · rw [write_registry]; exact hrA
  · rw [write_clients]; exact hcA
  · rw [write_registry]; exact hrB
  · rw [write_clients]; exact hcB
  · simpa [streamLive, write_clients] using hlive
  · rw [write_up, hasClose_append, hc1, (hextra _ _).2]
    rfl
  · rw [write_down]; exact hc2
  · unfold inFlight inboundOf
    rw [write_clients, write_down, write_up, payloadsOf_append, (hextra _ _).1, List.append_nil]

theorem step_linked (s : Net) (st : Step) (A B : PeerID) (hb : st.between A B = false)
    (h : Linked s A B) :
    Linked (st.apply s) A B ∧ inFlight (st.apply s) A B = inFlight s A B := by
  cases st with
  | route Z => exact route_linked s Z A B h
  | deliver Z => exact deliver_linked s Z A B h
  | write X Y b =>
    refine write_linked s X Y b A B ?_ h
    intro hxy
    simp [Step.between, hxy.1, hxy.2] at hb

theorem run_linked (σ : List Step) (s : Net) (A B : PeerID)
    (hσ : ∀ st ∈ σ, Step.between A B st = false) (h : Linked s A B) :
    Linked (run s σ) A B ∧ inFlight (run s σ) A B = inFlight s A B := by
  induction σ generalizing s with
  | nil => exact ⟨h, rfl⟩
  | cons st σ ih =>
    have h1 := step_linked s st A B (hσ st (List.mem_cons_self _ _)) h
    have h2 := ih (st.apply s) (fun x hx => hσ x (List.mem_cons_of_mem _ hx)) h1.1
    exact ⟨h2.1, h2.2.trans h1.2⟩


theorem write_send (s : Net) (A B : PeerID) (P : List Byte) (h : Linked s A B)
    (hl : streamLive s A B = true) :
    Linked (Write s A B P).conn A B ∧
      inFlight (Write s A B P).conn A B = inFlight s A B ++ [P] ∧
      ((Write s A B P).conn.links A).up = (s.links A).up ++ [Frame.DATA B P] := by
  obtain ⟨⟨hrA, hcA⟩, ⟨hrB, hcB⟩, hlive, hc1, hc2⟩ := h
  have hup : ((Write s A B P).conn.links A).up = (s.links A).up ++ [Frame.DATA B P] := by
    rw [write_up]
    simp [hcA, hl]
  refine ⟨⟨⟨?_, ?_⟩, ⟨?_, ?_⟩, ?_, ?_, ?_⟩, ?_, hup⟩
  · rw [write_registry]; exact hrA
  · rw [write_clients]; exact hcA
  · rw [write_registry]; exact hrB
  · rw [write_clients]; exact hcB
  · simpa [streamLive, write_clients] using hlive
  · rw [hup, hasClose_append, hc1]
    simp [hasClose]
  · rw [write_down]; exact hc2
  · unfold inFlight inboundOf
    rw [write_clients, write_down, hup, payloadsOf_append]
    simp [payloadsOf]

theorem run_route_up (n : Nat) (s : Net) (X : PeerID) (hr : s.registry X = true) :
    ((run s (List.replicate n (.route X))).links X).up = (s.links X).up.drop n := by
  induction n generalizing s with
  | zero => simp [run]
  | succ n ih =>
    have h1 : run s (List.replicate (n + 1) (.route X))
        = run (route s X) (List.replicate n (.route X)) := by
      simp [run, List.replicate_succ, Step.apply]
    rw [h1, ih (route s X) (by rw [route_registry]; exact hr), route_up]
    simp [hr, List.drop_tail]

theorem run_deliver_down (n : Nat) (s : Net) (Y : PeerID) :
    ((run s (List.replicate n (.deliver Y))).links Y).down = (s.links Y).down.drop n := by
  induction n generalizing s with
  | zero => simp [run]
  | succ n ih =>
    have h1 : run s (List.replicate (n + 1) (.deliver Y))
        = run (deliver s Y) (List.replicate n (.deliver Y)) := by
      simp [run, List.replicate_succ, Step.apply]
    rw [h1, ih (deliver s Y), deliver_down]
    simp [List.drop_tail]

theorem run_deliver_up (n : Nat) (s : Net) (Y W : PeerID) :
    ((run s (List.replicate n (.deliver Y))).links W).up = (s.links W).up := by
  induction n generalizing s with
  | zero => simp [run]
  | succ n ih =>
    have h1 : run s (List.replicate (n + 1) (.deliver Y))
        = run (deliver s Y) (List.replicate n (.deliver Y)) := by
      simp [run, List.replicate_succ, Step.apply]
    rw [h1, ih (deliver s Y), deliver_up]

theorem route_turns_foreign (n : Nat) (X P Q : PeerID) :
    ∀ st ∈ List.replicate n (Step.route X), Step.between P Q st = false := by
  intro st hst
  rw [List.eq_of_mem_replicate hst]
  rfl

theorem deliver_turns_foreign (n : Nat) (X P Q : PeerID) :
    ∀ st ∈ List.replicate n (Step.deliver X), Step.between P Q st = false := by
  intro st hst
  rw [List.eq_of_mem_replicate hst]
  rfl

theorem settle_linked (s : Net) (A B : PeerID) (hAB : Linked s A B) (hBA : Linked s B A) :
    Linked (settle s A B) A B ∧ Linked (settle s A B) B A ∧
      inFlight (settle s A B) B A = inFlight s B A ∧
      inboundOf (settle s A B) B A = inFlight s A B ∧
      ((settle s A B).links A).up = [] ∧ ((settle s A B).links B).down = [] := by
  have r1 : Linked (routeAll s A) A B ∧ inFlight (routeAll s A) A B = inFlight s A B :=
    run_linked _ s A B (route_turns_foreign _ A A B) hAB
  have r2 : Linked (routeAll s A) B A ∧ inFlight (routeAll s A) B A = inFlight s B A :=
    run_linked _ s B A (route_turns_foreign _ A B A) hBA
  have d1 : Linked (settle s A B) A B ∧
      inFlight (settle s A B) A B = inFlight (routeAll s A) A B :=
    run_linked _ (routeAll s A) A B (deliver_turns_foreign _ B A B) r1.1
  have d2 : Linked (settle s A B) B A ∧
      inFlight (settle s A B) B A = inFlight (routeAll s A) B A :=
    run_linked _ (routeAll s A) B A (deliver_turns_foreign _ B B A) r2.1
  have hup0 : ((routeAll s A).links A).up = [] := by
    unfold routeAll
    rw [run_route_up _ s A hAB.1.1]
    simp
  have hup : ((settle s A B).links A).up = [] := by
    unfold settle deliverAll
    rw [run_deliver_up, hup0]
  have hdown : ((settle s A B).links B).down = [] := by
    unfold settle deliverAll
    rw [run_deliver_down]
    simp
  refine ⟨d1.1, d2.1, d2.2.trans r2.2, ?_, hup, hdown⟩
  have hfl : inFlight (settle s A B) A B = inFlight s A B := d1.2.trans r1.2
  rw [← hfl]
  unfold inFlight
  rw [hup, hdown]
  simp [payloadsOf]


theorem between_comm (A B : PeerID) (st : Step) : Step.between A B st = Step.between B A st := by
  cases st <;> simp [Step.between, Bool.or_comm]

theorem read_live (s : Net) (Y X : PeerID) (v : VirtualConnection) (c : List Byte)
    (rest : List (List Byte)) (buf : List Byte) (hv : (s.clients Y).conns X = some v)
    (hl : v.live = true) (hi : v.inbound = c :: rest) :
    ∃ r, Read s Y X buf = some r ∧ r.n = min buf.length c.length ∧ r.err = none ∧
      r.buf = c.take r.n ++ buf.drop r.n ∧
      r.conn.registry = s.registry ∧ r.conn.links = s.links ∧
      (∀ W, W ≠ Y → r.conn.clients W = s.clients W) ∧
      (r.conn.clients Y).registered = (s.clients Y).registered ∧
      (r.conn.clients Y).conns X
        = some { v with inbound := if (c.drop r.n).isEmpty then rest else c.drop r.n :: rest } := by
  have hcl : v.closed = false := by
    simp [VirtualConnection.live] at hl
    exact hl.1.1
  refine ⟨_, by simp only [Read, hv, hcl, hi]; rfl, rfl, rfl, rfl, rfl, rfl, ?_, ?_, ?_⟩
  · intro W hW
    simp [Function.update_noteq hW]
  · simp
  · simp [copy, hcl]

theorem read_linked (s : Net) (A B : PeerID) (c : List Byte) (rest : List (List Byte))
    (buf : List Byte) (hne : A ≠ B) (hAB : Linked s A B) (hBA : Linked s B A)
    (hin : inboundOf s B A = c :: rest) :
    ∃ r, Read s B A buf = some r ∧ r.n = min buf.length c.length ∧ r.err = none ∧
      r.buf = c.take r.n ++ buf.drop r.n ∧
      Linked r.conn A B ∧ Linked r.conn B A ∧ inFlight r.conn B A = inFlight s B A ∧
      inboundOf r.conn B A = (if (c.drop r.n).isEmpty then rest else c.drop r.n :: rest) := by
  obtain ⟨v, hv, hl⟩ := (streamLive_iff s B A).1 hAB.2.2.1
  have hi : v.inbound = c :: rest := by
    rw [← inboundOf_of_live s B A v hv hl]; exact hin
  obtain ⟨r, hr, hn, herr, hbuf, hreg, hlinks, hother, hregd, hconn⟩ :=
    read_live s B A v c rest buf hv hl hi
  have hA : r.conn.clients A = s.clients A := hother A hne
  have hl' : ({ v with inbound := if (c.drop r.n).isEmpty then rest else c.drop r.n :: rest } :
      VirtualConnection).live = true := hl
  refine ⟨r, hr, hn, herr, hbuf, ?_, ?_, ?_, ?_⟩
  · obtain ⟨⟨hrA, hcA⟩, ⟨hrB, hcB⟩, _, hc⟩ := hAB
    refine ⟨⟨by rw [hreg]; exact hrA, by rw [hA]; exact hcA⟩,
      ⟨by rw [hreg]; exact hrB, by rw [hregd]; exact hcB⟩,
      (streamLive_iff _ B A).2 ⟨_, hconn, hl'⟩, ?_⟩
    unfold NoClose
    rw [hlinks]
    exact hc
  · obtain ⟨⟨hrB, hcB⟩, ⟨hrA, hcA⟩, hlive, hc⟩ := hBA
    refine ⟨⟨by rw [hreg]; exact hrB, by rw [hregd]; exact hcB⟩,
      ⟨by rw [hreg]; exact hrA, by rw [hA]; exact hcA⟩, ?_, ?_⟩
    · simpa [streamLive, hA] using hlive
    · unfold NoClose
      rw [hlinks]
      exact hc
  · unfold inFlight inboundOf
    rw [hA, hlinks]
  · rw [inboundOf_of_live _ B A _ hconn hl']

theorem openConn_live (s : Net) (X Y : PeerID) (hX : Registered s X) :
    ∃ s1, OpenConn s X Y = .ok s1 ∧ s1.registry = s.registry ∧ s1.links = s.links ∧
      streamLive s1 X Y = true ∧ inboundOf s1 X Y = inboundOf s X Y ∧
      (s1.clients X).registered = true ∧ ∀ Z, Z ≠ X → s1.clients Z = s.clients Z := by
  obtain ⟨_, hcX⟩ := hX
  cases hv : (s.clients X).conns Y with
  | none =>
    refine ⟨_, by simp only [OpenConn, hcX, hv]; rfl, ?_, ?_, ?_, ?_, ?_, ?_⟩
    · rfl
    · rfl
    · simp [streamLive, VirtualConnection.fresh, VirtualConnection.live]
    · simp [inboundOf, hv, VirtualConnection.fresh, VirtualConnection.live]
    · simp [hcX]
    · intro Z hZ
      simp [Function.update_noteq hZ]
  | some vc =>
    cases hl : vc.live with
    | true =>
      exact ⟨s, by simp [OpenConn, hcX, hv, hl], rfl, rfl, by simp [streamLive, hv, hl], rfl, hcX,
        fun _ _ => rfl⟩
    | false =>
      refine ⟨_, by simp only [OpenConn, hcX, hv, hl]; rfl, ?_, ?_, ?_, ?_, ?_, ?_⟩
      · rfl
      · rfl
      · simp [streamLive, VirtualConnection.fresh, VirtualConnection.live]
      · simp only [inboundOf, hv, hl]
        simp [VirtualConnection.fresh, VirtualConnection.live]
      · simp [hcX]
      · intro Z hZ
        simp [Function.update_noteq hZ]

theorem openBoth_linked (s : Net) (A B : PeerID) (hne : A ≠ B) (hA : Registered s A)
    (hB : Registered s B) (hAB : NoClose s A B) (hBA : NoClose s B A) :
    ∃ s1 s2, OpenConn s A B = .ok s1 ∧ OpenConn s1 B A = .ok s2 ∧ s2.links = s.links ∧
      Linked s2 A B ∧ Linked s2 B A ∧
      inFlight s2 A B = inFlight s A B ∧ inFlight s2 B A = inFlight s B A := by
  have hne' : B ≠ A := fun h => hne h.symm
  obtain ⟨s1, h1, hr1, hl1, hs1, hi1, hc1, hk1⟩ := openConn_live s A B hA
  have hB1 : Registered s1 B := ⟨by rw [hr1]; exact hB.1, by rw [hk1 B hne']; exact hB.2⟩
  obtain ⟨s2, h2, hr2, hl2, hs2, hi2, hc2, hk2⟩ := openConn_live s1 B A hB1
  have hA2 : Registered s2 A := ⟨by rw [hr2, hr1]; exact hA.1, by rw [hk2 A hne]; exact hc1⟩
  have hB2 : Registered s2 B := ⟨by rw [hr2, hr1]; exact hB.1, hc2⟩
  have hlinks : s2.links = s.links := by rw [hl2, hl1]
  have hsA : streamLive s2 A B = true := by
    simpa [streamLive, hk2 A hne] using hs1
  have hiB : inboundOf s2 B A = inboundOf s B A := by
    rw [hi2]
    unfold inboundOf
    rw [hk1 B hne']
  have hiA : inboundOf s2 A B = inboundOf s A B := by
    rw [← hi1]
    unfold inboundOf
    rw [hk2 A hne]
  refine ⟨s1, s2, h1, h2, hlinks, ⟨hA2, hB2, hs2, ?_⟩, ⟨hB2, hA2, hsA, ?_⟩, ?_, ?_⟩
  · unfold NoClose; rw [hlinks]; exact hAB
  · unfold NoClose; rw [hlinks]; exact hBA
  · unfold inFlight; rw [hiB, hlinks]
  · unfold inFlight; rw [hiA, hlinks]


/-- C9: let `A` and `B` be distinct peers registered on one server, with no
close notice under way between them, whatever else is queued anywhere in the
relay.  After `A` and `B` open their streams to each other, a `Write` of `P`
by `A` succeeds and puts one `DATA` frame with exactly `P` behind everything
`A` has sent.  Let then the routing loops and read loops of any peers take
turns and other streams be written in any order (`σ`), until what `A` sent has
been routed and what waits for `B` has been handed to its streams.  Then the
stream of `B` from `A` holds what was under way from `A` to `B` before,
followed by `P`, and a second payload `Q` written right after `P` comes after
`P`.  With nothing under way before, a `Read` of `B` returns the first
`min(len(buf), len(P))` bytes of `P` with a nil error and keeps the rest
queued; with a buffer of at least `len(P)` bytes it returns exactly `P`.  When
`B` writes the bytes it read back and the relay runs again (`τ`), the `Read`
of `A` returns exactly those bytes, which are `P` when the buffer held `P`. -/
theorem round_trip (s : Net) (A B : PeerID) (P Q buf : List Byte) (σ τ : List Step)
    (hne : A ≠ B) (hA : Registered s A) (hB : Registered s B)
    (hAB : NoClose s A B) (hBA : NoClose s B A)
    (hσ : ∀ st ∈ σ, Step.between A B st = false)
    (hτ : ∀ st ∈ τ, Step.between A B st = false) :
    ∃ s1 s2, OpenConn s A B = .ok s1 ∧ OpenConn s1 B A = .ok s2 ∧
      (Write s2 A B P).n = P.length ∧ (Write s2 A B P).err = none ∧
      ((Write s2 A B P).conn.links A).up = (s.links A).up ++ [Frame.DATA B P] ∧
      inboundOf (settle (run (Write s2 A B P).conn σ) A B) B A = inFlight s A B ++ [P] ∧
      inboundOf (settle (run (Write (Write s2 A B P).conn A B Q).conn σ) A B) B A
        = inFlight s A B ++ [P, Q] ∧
      (inFlight s A B = [] →
        ∃ r, Read (settle (run (Write s2 A B P).conn σ) A B) B A buf = some r ∧
          r.err = none ∧ r.n = min buf.length P.length ∧
          r.buf = P.take r.n ++ buf.drop r.n ∧
          inboundOf r.conn B A = (if (P.drop r.n).isEmpty then [] else [P.drop r.n]) ∧
          (P.length ≤ buf.length → r.n = P.length ∧ r.buf.take r.n = P) ∧
          (inFlight s B A = [] →
            (Write r.conn B A (r.buf.take r.n)).err = none ∧
            ∃ r2, Read (settle (run (Write r.conn B A (r.buf.take r.n)).conn τ) B A) A B r.buf
                = some r2 ∧
              r2.err = none ∧ r2.n = r.n ∧ r2.buf.take r2.n = r.buf.take r.n ∧
              inboundOf r2.conn A B = [] ∧
              (P.length ≤ buf.length → r2.buf.take r2.n = P))) := by
  have hne' : B ≠ A := fun h => hne h.symm
  have hσ' : ∀ st ∈ σ, Step.between B A st = false := fun st hst => by
    rw [between_comm]; exact hσ st hst
  have hτ' : ∀ st ∈ τ, Step.between B A st = false := fun st hst => by
    rw [between_comm]; exact hτ st hst
  obtain ⟨s1, s2, h1, h2, hlinks, l2, l2', f2, f2'⟩ := openBoth_linked s A B hne hA hB hAB hBA
  have hwok := write_ok s2 A B P l2.1.2 l2'.2.2.1
  obtain ⟨lw, fw, hup⟩ := write_send s2 A B P l2 l2'.2.2.1
  have lw' := write_linked s2 A B P B A (fun h => hne h.1) l2'
  have lr := run_linked σ _ A B hσ lw
  have lr' := run_linked σ _ B A hσ' lw'.1
  obtain ⟨ls, ls', fs', hin, _, _⟩ := settle_linked _ A B lr.1 lr'.1
  have hin' : inboundOf (settle (run (Write s2 A B P).conn σ) A B) B A = inFlight s A B ++ [P] := by
    rw [hin, lr.2, fw, f2]
  -- the second payload
  have hl1 : streamLive (Write s2 A B P).conn A B = true := lw'.1.2.2.1
  obtain ⟨lq, fq, _⟩ := write_send (Write s2 A B P).conn A B Q lw hl1
  have lq' := write_linked (Write s2 A B P).conn A B Q B A (fun h => hne h.1) lw'.1
  have lqr := run_linked σ _ A B hσ lq
  have lqr' := run_linked σ _ B A hσ' lq'.1
  obtain ⟨_, _, _, hinq, _, _⟩ := settle_linked _ A B lqr.1 lqr'.1
  refine ⟨s1, s2, h1, h2, hwok.1, hwok.2, by rw [hup, hlinks], hin', ?_, ?_⟩
  · rw [hinq, lqr.2, fq, fw, f2]
    simp
  intro hidle
  rw [hidle, List.nil_append] at hin'
  obtain ⟨r, hr, hn, herr, hbuf, lrd, lrd', frd', hleft⟩ :=
    read_linked _ A B P [] buf hne ls ls' hin'
  have hlen : r.buf.length = buf.length := by
    rw [hbuf, hn]
    simp only [List.length_append, List.length_take, List.length_drop]
    omega
  have hfit : P.length ≤ buf.length → r.n = P.length ∧ r.buf.take r.n = P := by
    intro hle
    have hnP : r.n = P.length := by rw [hn]; exact Nat.min_eq_right hle
    refine ⟨hnP, ?_⟩
    rw [hbuf, hnP, List.take_length, List.take_left' rfl]
  refine ⟨r, hr, herr, hn, hbuf, hleft, hfit, ?_⟩
  intro hidle'
  -- the way back
  have hfl' : inFlight r.conn B A = [] := by
    rw [frd', fs', lr'.2, lw'.2, f2', hidle']
  have hwok2 := write_ok r.conn B A (r.buf.take r.n) lrd'.1.2 lrd.2.2.1
  obtain ⟨le, fe, _⟩ := write_send r.conn B A (r.buf.take r.n) lrd' lrd.2.2.1
  have le' := write_linked r.conn B A (r.buf.take r.n) A B (fun h => hne' h.1) lrd
  have lt := run_linked τ _ B A hτ' le
  have lt' := run_linked τ _ A B hτ le'.1
  obtain ⟨lse, lse', _, hine, _, _⟩ := settle_linked _ B A lt.1 lt'.1
  have hine' : inboundOf (settle (run (Write r.conn B A (r.buf.take r.n)).conn τ) B A) A B
      = [r.buf.take r.n] := by
    rw [hine, lt.2, fe, hfl', List.nil_append]
  obtain ⟨r2, hr2, hn2, herr2, hbuf2, _, _, _, hleft2⟩ :=
    read_linked _ B A (r.buf.take r.n) [] r.buf hne' lse lse' hine'
  have hrn : r.n ≤ r.buf.length := by
    rw [hlen, hn]; exact Nat.min_le_left _ _
  have hn2' : r2.n = r.n := by
    rw [hn2, List.length_take]
    omega
  have htake : r2.buf.take r2.n = r.buf.take r.n := by
    rw [hbuf2, hn2']
    have hl : (r.buf.take r.n).length = r.n := by
      rw [List.length_take]; omega
    rw [List.take_of_length_le (le_of_eq hl)]
    exact List.take_left' hl
  refine ⟨hwok2.2, r2, hr2, herr2, hn2', htake, ?_, ?_⟩
  · rw [hleft2, hn2']
    have hl : (r.buf.take r.n).length = r.n := by
      rw [List.length_take]; omega
    rw [List.drop_of_length_le (le_of_eq hl)]
    rfl
  · intro hle
    rw [htake]
    exact (hfit hle).2



/-- Witness of C9: `alice` and `bob` of `TestClient` while frames of
`clientPlaceHolder` wait around them and its routing loop and a write of it
take turns in between; two bytes of payload and a four byte buffer. -/
theorem round_trip_witness :
    ("alice" : PeerID) ≠ "bob" ∧ Registered busyNet "alice" ∧ Registered busyNet "bob" ∧
    NoClose busyNet "alice" "bob" ∧ NoClose busyNet "bob" "alice" ∧
    inFlight busyNet "alice" "bob" = [] ∧ inFlight busyNet "bob" "alice" = [] ∧
    ∃ s1 s2, OpenConn busyNet "alice" "bob" = .ok s1 ∧ OpenConn s1 "bob" "alice" = .ok s2 ∧
      ∃ r, Read (settle (run (Write s2 "alice" "bob" [104, 105]).conn
            [.route "clientPlaceHolder", .write "clientPlaceHolder" "bob" [4],
              .deliver "bob"]) "alice" "bob") "bob" "alice" [0, 0, 0, 0] = some r ∧
        r.err = none ∧ r.n = 2 ∧ r.buf.take r.n = [104, 105] := by
  have hne : ("alice" : PeerID) ≠ "bob" := by decide
  have hA : Registered busyNet "alice" := by unfold Registered; decide
  have hB : Registered busyNet "bob" := by unfold Registered; decide
  have hAB : NoClose busyNet "alice" "bob" := by unfold NoClose; decide
  have hBA : NoClose busyNet "bob" "alice" := by unfold NoClose; decide
  have hfl : inFlight busyNet "alice" "bob" = [] := by decide
  have hfl' : inFlight busyNet "bob" "alice" = [] := by decide
  obtain ⟨s1, s2, h1, h2, _, _, _, _, _, hread⟩ :=
    round_trip busyNet "alice" "bob" [104, 105] [] [0, 0, 0, 0]
      [.route "clientPlaceHolder", .write "clientPlaceHolder" "bob" [4], .deliver "bob"] []
      hne hA hB hAB hBA (by decide) (by decide)
  obtain ⟨r, hr, herr, _, _, _, hfit, _⟩ := hread hfl
  exact ⟨hne, hA, hB, hAB, hBA, hfl, hfl', s1, s2, h1, h2, r, hr, herr,
    (hfit (by decide)).1, (hfit (by decide)).2⟩

end Relay.Model

/-! ## `ICEBind.Close` -/

namespace Bind

/-- C11: from any state of the bind and for any answers of the two resource
close calls, `Close` leaves `sharedConn` and `udpMux` nil and `transportNet`
as it was; the close calls it made are one on the socket if the socket was
non-nil followed by one on the mux if the mux was non-nil, and nothing else,
whatever the socket close answered; it returns the socket close error if
that is non-nil and otherwise the mux close error, nil for a resource that
was nil.  A `Close` repeated right after makes no close call, returns nil
and changes nothing, and `GetICEMux` fails after `Close`. -/
theorem ICEBind.close_releases (b : ICEBind)
    (connErr muxErr connErr2 muxErr2 : Option Relay.GoError) :
    (b.Close connErr muxErr).bind.sharedConn = none ∧
    (b.Close connErr muxErr).bind.udpMux = none ∧
    (b.Close connErr muxErr).bind.transportNet = b.transportNet ∧
    (b.Close connErr muxErr).calls
      = (b.sharedConn.map ResourceCall.connClose).toList
        ++ (b.udpMux.map ResourceCall.muxClose).toList ∧
    (b.Close connErr muxErr).err
      = (if b.sharedConn.isSome && connErr.isSome then connErr
         else if b.udpMux.isSome then muxErr
         else none) ∧
    ((b.Close connErr muxErr).bind.Close connErr2 muxErr2).calls = [] ∧
    ((b.Close connErr muxErr).bind.Close connErr2 muxErr2).err = none ∧
    ((b.Close connErr muxErr).bind.Close connErr2 muxErr2).bind = (b.Close connErr muxErr).bind ∧
    (b.Close connErr muxErr).bind.GetICEMux
      = .error (.other "ICEBind has not been initialized yet") := by
  obtain ⟨sc, um, tn⟩ := b
  cases sc <;> cases um <;> cases connErr <;> cases muxErr <;>
    simp [ICEBind.Close, ICEBind.GetICEMux]

end Bind
